import Mathlib

/-!
# SongRec (Item4Katze/SongRec-spotify) — verification of the spec claims

Shallow embedding of the program:

* the Shazam signature codec (binary frame and data-URI forms), modelled
  from the spec because `signature_format.rs` is not part of the sources
  provided under `src/`;
* the command-line dispatch of `src/main.rs`, embedded directly from the
  source.

Machine integers are modelled as `Nat` with explicit `% 2^w` truncation
where the Rust code writes fixed-width little-endian words.
-/

namespace SongRec

/-! ## Data model (spec §3)

`FrequencyPeak` and the signature record, as described by the spec's data
model.  The source names the signature type `DecodedSignature`
(cf. `use crate::fingerprinting::signature_format::DecodedSignature` in
`main.rs`); the four per-band peak sequences of the spec's
`Map<FrequencyBand, Sequence<FrequencyPeak>>` are modelled as four list
fields, bands in numeric order. -/

/-- A spectral peak record, spec §3: `{fft_pass_number: u32,
peak_magnitude: u16, corrected_peak_frequency_bin: u16, sample_rate_hz: u32}`. -/
structure FrequencyPeak where
  fft_pass_number : Nat
  peak_magnitude : Nat
  corrected_peak_frequency_bin : Nat
  sample_rate_hz : Nat
deriving DecidableEq

/-- The signature record, spec §3: sample rate, number of samples fed in,
and the per-band peak sequences (bands `0x250_520 .. 3500_5500` in numeric
order). -/
structure DecodedSignature where
  sample_rate_hz : Nat
  num_samples : Nat
  peaks_250_520 : List FrequencyPeak
  peaks_520_1450 : List FrequencyPeak
  peaks_1450_3500 : List FrequencyPeak
  peaks_3500_5500 : List FrequencyPeak
deriving DecidableEq

/-! ## Little-endian byte helpers -/

/-- The four bytes of a `u32` written little-endian. -/
def u32le (x : Nat) : List Nat :=
  [x % 256, x / 256 % 256, x / 65536 % 256, x / 16777216 % 256]

/-- The two bytes of a `u16` written little-endian. -/
def u16le (x : Nat) : List Nat :=
  [x % 256, x / 256 % 256]

/-- Read four little-endian bytes back as one number. -/
def leU32 (a b c d : Nat) : Nat :=
  a + 256 * b + 65536 * c + 16777216 * d

/-! ## CRC-32 (IEEE), spec §4.5 step 4 and §6 -/

/-- One shift-and-conditionally-xor round of the bitwise CRC-32/IEEE
computation (reflected polynomial `0xEDB88320`). -/
def crc32Round (c : Nat) : Nat :=
  if c % 2 = 1 then (c / 2) ^^^ 0xEDB88320 else c / 2

/-- Fold one byte into the running CRC-32 register (eight rounds). -/
def crc32Byte (c b : Nat) : Nat :=
  crc32Round (crc32Round (crc32Round (crc32Round
    (crc32Round (crc32Round (crc32Round (crc32Round (c ^^^ b))))))))

/-- Modelled from the spec: `CRC32/IEEE over the entire frame with the CRC
word zeroed` (spec §6); the CRC-32 implementation itself lives in the
`crc32` crate used by `signature_format.rs`, which is absent from `src/`. -/
def crc32 (bytes : List Nat) : Nat :=
  (bytes.foldl crc32Byte 4294967295) ^^^ 4294967295

/-! ## Peak record codec (spec §4.5 step 1)

Each peak record uses one of two forms depending on whether
`Δfft_pass = current − previous ≥ 255`: the short form writes
`(Δfft_pass : u8, peak_magnitude : u16 LE, corrected_bin : u16 LE)`; the
long form writes `0xFF` then `(fft_pass_number : u32 LE, peak_magnitude :
u16 LE, corrected_bin : u16 LE)` and resets the running base. -/

/-- Modelled from the spec: the variable-length peak-record stream of one
band of `encode_to_binary` (spec §4.5 step 1); `signature_format.rs` is
absent from `src/`. -/
def encodeRecords : Nat → List FrequencyPeak → List Nat
  | _, [] => []
  | base, p :: rest =>
    if 255 ≤ p.fft_pass_number - base then
      255 :: (u32le p.fft_pass_number ++ (u16le p.peak_magnitude
        ++ (u16le p.corrected_peak_frequency_bin
        ++ encodeRecords p.fft_pass_number rest)))
    else
      (p.fft_pass_number - base) :: (u16le p.peak_magnitude
        ++ (u16le p.corrected_peak_frequency_bin
        ++ encodeRecords p.fft_pass_number rest))

/-- Modelled from the spec: inverse of `encodeRecords`; reads peak records
until the byte stream is exhausted, failing on a truncated record.  The
first argument is the sample rate recorded into each decoded peak, the
second a fuel bound (the caller passes the byte count; every record
consumes at least five bytes). -/
def decodeRecords (rate : Nat) : Nat → Nat → List Nat → Option (List FrequencyPeak)
  | _, _, [] => some []
  | 0, _, _ :: _ => none
  | fuel + 1, base, b :: rest =>
    if b = 255 then
      match rest with
      | a0 :: a1 :: a2 :: a3 :: m0 :: m1 :: q0 :: q1 :: rest2 =>
        match decodeRecords rate fuel (leU32 a0 a1 a2 a3) rest2 with
        | some ps =>
          some (⟨leU32 a0 a1 a2 a3, m0 + 256 * m1, q0 + 256 * q1, rate⟩ :: ps)
        | none => none
      | _ => none
    else
      match rest with
      | m0 :: m1 :: q0 :: q1 :: rest2 =>
        match decodeRecords rate fuel (base + b) rest2 with
        | some ps =>
          some (⟨base + b, m0 + 256 * m1, q0 + 256 * q1, rate⟩ :: ps)
        | none => none
      | _ => none

/-- Well-formedness of one peak as the FFT stage produces it: fields fit
their machine widths and the sample rate matches the signature's. -/
def wfPeak (rate : Nat) (p : FrequencyPeak) : Prop :=
  p.fft_pass_number < 4294967296 ∧ p.peak_magnitude < 65536
    ∧ p.corrected_peak_frequency_bin < 65536 ∧ p.sample_rate_hz = rate

instance (rate : Nat) (p : FrequencyPeak) : Decidable (wfPeak rate p) := by
  unfold wfPeak; infer_instance

/-- Well-formedness of a band's peak sequence relative to a running base
pass number: every peak is well formed and the `fft_pass_number`s are
non-decreasing (the FFT stage appends peaks in pass order). -/
def wfPeaks (rate : Nat) : Nat → List FrequencyPeak → Prop
  | _, [] => True
  | base, p :: rest =>
    base ≤ p.fft_pass_number ∧ wfPeak rate p ∧ wfPeaks rate p.fft_pass_number rest

instance instDecidableWfPeaks (rate : Nat) :
    ∀ (base : Nat) (l : List FrequencyPeak), Decidable (wfPeaks rate base l)
  | _, [] => .isTrue trivial
  | base, p :: rest =>
    have : Decidable (wfPeaks rate p.fft_pass_number rest) :=
      instDecidableWfPeaks rate p.fft_pass_number rest
    by unfold wfPeaks; infer_instance

/-! ## Band TLV blocks (spec §4.5 step 1)

Bands are written in numeric order; each band's TLV tag is `0x60 +
band_index`; the block holds the record stream plus padding to a 4-byte
boundary.  Bands with no peaks are skipped (an empty signature encodes to
a 56-byte frame, spec §8 seed test 3). -/

/-- Zero-padding needed to round `n` bytes up to a 4-byte boundary. -/
def padTo4 (n : Nat) : Nat := (4 - n % 4) % 4

/-- Modelled from the spec: one band's TLV block — tag `0x60 + band` (u32
LE), record-stream byte length (u32 LE), the records, zero padding to a
4-byte boundary.  `signature_format.rs` is absent from `src/`. -/
def encodeTLV (band : Nat) (ps : List FrequencyPeak) : List Nat :=
  u32le (96 + band) ++ (u32le (encodeRecords 0 ps).length
    ++ (encodeRecords 0 ps ++ List.replicate (padTo4 (encodeRecords 0 ps).length) 0))

/-- Concatenation of the TLV blocks of a list of (band, peaks) pairs. -/
def encodeTLVList : List (Nat × List FrequencyPeak) → List Nat
  | [] => []
  | (band, ps) :: rest => encodeTLV band ps ++ encodeTLVList rest

/-- The (band index, peaks) pairs of a signature, bands in numeric order,
empty bands skipped. -/
def bandsOf (s : DecodedSignature) : List (Nat × List FrequencyPeak) :=
  (if s.peaks_250_520 = [] then [] else [(0, s.peaks_250_520)])
    ++ ((if s.peaks_520_1450 = [] then [] else [(1, s.peaks_520_1450)])
    ++ ((if s.peaks_1450_3500 = [] then [] else [(2, s.peaks_1450_3500)])
    ++ (if s.peaks_3500_5500 = [] then [] else [(3, s.peaks_3500_5500)])))

/-- Modelled from the spec: the peak payload — the TLV blocks of the four
bands in numeric order, empty bands skipped. -/
def encodePayload (s : DecodedSignature) : List Nat :=
  encodeTLVList (bandsOf s)

/-- Modelled from the spec: inverse of `encodeTLVList`.  Reads TLV blocks
until the payload is exhausted; a tag outside `0x60..0x63` or a truncated
block is a `CorruptSignature` failure (`none`).  The fuel bound is the
number of blocks still allowed (at most four bands). -/
def decodeTLVList (rate : Nat) : Nat → List Nat → Option (List (Nat × List FrequencyPeak))
  | _, [] => some []
  | 0, _ :: _ => none
  | fuel + 1, t0 :: t1 :: t2 :: t3 :: l0 :: l1 :: l2 :: l3 :: body =>
    if 96 ≤ leU32 t0 t1 t2 t3 ∧ leU32 t0 t1 t2 t3 ≤ 99
        ∧ leU32 l0 l1 l2 l3 + padTo4 (leU32 l0 l1 l2 l3) ≤ body.length then
      match decodeRecords rate (leU32 l0 l1 l2 l3) 0 (body.take (leU32 l0 l1 l2 l3)) with
      | some ps =>
        match decodeTLVList rate fuel
            (body.drop (leU32 l0 l1 l2 l3 + padTo4 (leU32 l0 l1 l2 l3))) with
        | some rest => some ((leU32 t0 t1 t2 t3 - 96, ps) :: rest)
        | none => none
      | none => none
    else none
  | _ + 1, _ :: _ => none

/-- The peak list a decoded pair list assigns to band `i` (first match, or
empty when the band is absent). -/
def getBand (pairs : List (Nat × List FrequencyPeak)) (i : Nat) : List FrequencyPeak :=
  match pairs with
  | [] => []
  | (k, v) :: rest => if k = i then v else getBand rest i

/-! ## Binary frame codec (spec §4.5 steps 2–4, §6)

Header layout (48 bytes, twelve u32 LE words, in the spec's order):
magic1 `0xCAFE2580`, CRC-32, total size, magic2 `0x94119C00`, sample-rate
descriptor `0x400000000 ||| (rate_code <<< 27)` truncated to u32 (16 kHz →
code 3), four reserved zero words, `num_samples + 0x7C00`, the constant
`0x40000000`, and `peak_payload_length + 8`.  The frame is the header, a
`0x40000000` word, the payload length word, and the payload; the CRC-32
word is computed over the whole frame with the CRC word zeroed. -/

/-- The twelve header words after the magic1/CRC words, the two
post-header words, and the payload — everything of the frame after byte 8. -/
def suffixBytes (s : DecodedSignature) : List Nat :=
  u32le (56 + (encodePayload s).length)
    ++ (u32le 0x94119C00
    ++ (u32le (0x400000000 ||| (3 <<< 27))
    ++ (u32le 0 ++ (u32le 0 ++ (u32le 0 ++ (u32le 0
    ++ (u32le (s.num_samples + 0x7C00)
    ++ (u32le 0x40000000
    ++ (u32le ((encodePayload s).length + 8)
    ++ (u32le 0x40000000
    ++ (u32le (encodePayload s).length
    ++ encodePayload s)))))))))))

/-- The frame with the CRC word still zero (the buffer over which the
CRC-32 is computed, spec §6). -/
def frameNoCrc (s : DecodedSignature) : List Nat :=
  u32le 0xCAFE2580 ++ (u32le 0 ++ suffixBytes s)

/-- Modelled from the spec: `DecodedSignature::encode_to_binary` of
`signature_format.rs` (absent from `src/`), spec §4.5 steps 2–4. -/
def encode_to_binary (s : DecodedSignature) : List Nat :=
  u32le 0xCAFE2580 ++ (u32le (crc32 (frameNoCrc s)) ++ suffixBytes s)

/-- Modelled from the spec: `DecodedSignature::decode_from_binary` of
`signature_format.rs` (absent from `src/`).  Inverts the encoding and
fails (`none`, the `CorruptSignature` error) on any mismatch of magics,
sizes, CRC, rate code, or band tag. -/
def decode_from_binary (bytes : List Nat) : Option DecodedSignature :=
  match bytes with
  | m0 :: m1 :: m2 :: m3 :: c0 :: c1 :: c2 :: c3
      :: z0 :: z1 :: z2 :: z3 :: g0 :: g1 :: g2 :: g3
      :: r0 :: r1 :: r2 :: r3
      :: v0 :: v1 :: v2 :: v3 :: v4 :: v5 :: v6 :: v7
      :: v8 :: v9 :: v10 :: v11 :: v12 :: v13 :: v14 :: v15
      :: n0 :: n1 :: n2 :: n3 :: k0 :: k1 :: k2 :: k3
      :: p0 :: p1 :: p2 :: p3 :: q0 :: q1 :: q2 :: q3
      :: l0 :: l1 :: l2 :: l3 :: payload =>
    if leU32 m0 m1 m2 m3 = 0xCAFE2580
        ∧ leU32 g0 g1 g2 g3 = 0x94119C00
        ∧ leU32 z0 z1 z2 z3 = 56 + payload.length
        ∧ leU32 c0 c1 c2 c3 = crc32 (m0 :: m1 :: m2 :: m3 :: 0 :: 0 :: 0 :: 0
            :: z0 :: z1 :: z2 :: z3 :: g0 :: g1 :: g2 :: g3
            :: r0 :: r1 :: r2 :: r3
            :: v0 :: v1 :: v2 :: v3 :: v4 :: v5 :: v6 :: v7
            :: v8 :: v9 :: v10 :: v11 :: v12 :: v13 :: v14 :: v15
            :: n0 :: n1 :: n2 :: n3 :: k0 :: k1 :: k2 :: k3
            :: p0 :: p1 :: p2 :: p3 :: q0 :: q1 :: q2 :: q3
            :: l0 :: l1 :: l2 :: l3 :: payload)
        ∧ leU32 r0 r1 r2 r3 / 2 ^ 27 % 16 = 3
        ∧ 0x7C00 ≤ leU32 n0 n1 n2 n3
        ∧ leU32 p0 p1 p2 p3 = payload.length + 8
        ∧ leU32 l0 l1 l2 l3 = payload.length then
      match decodeTLVList 16000 4 payload with
      | some pairs =>
        some ⟨16000, leU32 n0 n1 n2 n3 - 0x7C00,
          getBand pairs 0, getBand pairs 1, getBand pairs 2, getBand pairs 3⟩
      | none => none
    else none
  | _ => none

/-- The well-formedness guarantees the FFT stage gives for the signatures
it produces: 16 kHz sample rate, per-band peak sequences in pass order
with fields fitting their machine widths, and sizes fitting u32. -/
def wfSignature (s : DecodedSignature) : Prop :=
  s.sample_rate_hz = 16000
    ∧ s.num_samples + 0x7C00 < 4294967296
    ∧ wfPeaks 16000 0 s.peaks_250_520
    ∧ wfPeaks 16000 0 s.peaks_520_1450
    ∧ wfPeaks 16000 0 s.peaks_1450_3500
    ∧ wfPeaks 16000 0 s.peaks_3500_5500
    ∧ 56 + (encodePayload s).length < 4294967296

instance (s : DecodedSignature) : Decidable (wfSignature s) := by
  unfold wfSignature; infer_instance

/-! ## Data-URI codec (spec §4.5 URI form, §6)

`data:audio/vnd.shazam.sig;base64,` + standard base64 of the frame, then
URL-escape `+` as `-` and `/` as `_` per URL-safe base64. -/

/-- The standard base64 alphabet, sextet value order. -/
def stdB64Alphabet : List Char :=
  ("ABCDEFGHIJKLMNOPQRSTUVWXYZabcdefghijklmnopqrstuvwxyz0123456789+/").toList

/-- The character encoding a sextet value. -/
def b64char (n : Nat) : Char := stdB64Alphabet.getD n 'A'

/-- Position of a character in the alphabet, if present. -/
def b64indexAux (c : Char) : List Char → Nat → Option Nat
  | [], _ => none
  | a :: rest, i => if a = c then some i else b64indexAux c rest (i + 1)

/-- Sextet value of a base64 alphabet character. -/
def b64index (c : Char) : Option Nat := b64indexAux c stdB64Alphabet 0

/-- Modelled from the spec: standard base64 encoding of a byte stream with
`=` padding (the `base64` crate used by `signature_format.rs`, which is
absent from `src/`). -/
def b64encode : List Nat → List Char
  | a :: b :: c :: rest =>
    b64char (a / 4) :: b64char (a % 4 * 16 + b / 16)
      :: b64char (b % 16 * 4 + c / 64) :: b64char (c % 64) :: b64encode rest
  | [a, b] => [b64char (a / 4), b64char (a % 4 * 16 + b / 16), b64char (b % 16 * 4), '=']
  | [a] => [b64char (a / 4), b64char (a % 4 * 16), '=', '=']
  | [] => []

/-- Modelled from the spec: base64 decoding, the inverse of `b64encode`;
fails on characters outside the alphabet, misplaced padding, or a length
that is not a multiple of four. -/
def b64decode : List Char → Option (List Nat)
  | [] => some []
  | c1 :: c2 :: c3 :: c4 :: rest =>
    match b64index c1, b64index c2 with
    | some n1, some n2 =>
      if c3 = '=' then
        if c4 = '=' ∧ rest = [] then some [n1 * 4 + n2 / 16] else none
      else
        match b64index c3 with
        | some n3 =>
          if c4 = '=' then
            if rest = [] then some [n1 * 4 + n2 / 16, n2 % 16 * 16 + n3 / 4] else none
          else
            match b64index c4, b64decode rest with
            | some n4, some bs =>
              some ((n1 * 4 + n2 / 16) :: (n2 % 16 * 16 + n3 / 4) :: (n3 % 4 * 64 + n4) :: bs)
            | _, _ => none
        | none => none
    | _, _ => none
  | _ => none

/-- URL-escaping of the two non-URL-safe base64 characters (spec §4.5:
"URL-escape the `+` as `-` and `/` as `_`"). -/
def escapeUrlChar (c : Char) : Char :=
  if c = '+' then '-' else if c = '/' then '_' else c

/-- Inverse of `escapeUrlChar`. -/
def unescapeUrlChar (c : Char) : Char :=
  if c = '-' then '+' else if c = '_' then '/' else c

/-- The data-URI prefix (spec §6). -/
def uriPrefixChars : List Char := ("data:audio/vnd.shazam.sig;base64,").toList

/-- Modelled from the spec: `DecodedSignature::encode_to_uri` of
`signature_format.rs` (absent from `src/`) — the data-URI prefix followed
by the URL-safe base64 of the binary frame. -/
def encode_to_uri (s : DecodedSignature) : List Char :=
  uriPrefixChars ++ (b64encode (encode_to_binary s)).map escapeUrlChar

/-- Modelled from the spec: `DecodedSignature::decode_from_uri` of
`signature_format.rs` (absent from `src/`) — strips the data-URI prefix,
undoes the URL-safe escaping, base64-decodes and decodes the frame. -/
def decode_from_uri (u : List Char) : Option DecodedSignature :=
  if u.take uriPrefixChars.length = uriPrefixChars then
    match b64decode ((u.drop uriPrefixChars.length).map unescapeUrlChar) with
    | some bytes => decode_from_binary bytes
    | none => none
  else none

/-! ## Command-line dispatch (embedding of `src/main.rs`)

The remainder embeds `fn main()` of `src/main.rs` for a build without the
`gui` feature.  The effectful collaborators invoked by `main`
(`SignatureGenerator::make_signature_from_file`,
`recognize_song_from_signature`, `serde_json::to_string_pretty`,
`cli_main`) live in modules not provided under `src/` and are modelled as
an oracle environment; `main`'s own control flow (the `match` over the
subcommand, the `?` error propagation, the `CLIParameters` records it
builds) is embedded directly from the source. -/

/-- Errors `main` can propagate (`Box<dyn Error>` in the source). -/
inductive RunError
  | fileDecode (msg : List Char)
  | corruptSignature
  | recognition (msg : List Char)
  | cli (msg : List Char)
deriving DecidableEq

/-- An opaque JSON document returned by the recognition service. -/
structure JsonDoc where
  raw : List Char
deriving DecidableEq

/-- The `CLIOutputType` enum of `cli_main.rs` as referenced by `main.rs`. -/
inductive CLIOutputType
  | JSON
  | CSV
  | SongName
deriving DecidableEq

/-- The `CLIParameters` record as constructed by `main.rs` (lines 249–299, 322–331). -/
structure CLIParameters where
  enable_mpris : Bool
  recognize_once : Bool
  audio_device : Option String
  input_file : Option String
  output_type : CLIOutputType
deriving DecidableEq

/-- Oracle environment for the effectful collaborators of `main`. -/
structure ExternalEnv where
  make_signature_from_file : String → Except RunError DecodedSignature
  recognize_song_from_signature : DecodedSignature → Except RunError JsonDoc
  to_string_pretty : JsonDoc → List Char
  cli_main : CLIParameters → Except RunError Unit

/-- The parsed subcommand of the CLI, mirroring `base_app!` of `main.rs`. -/
inductive Subcommand
  | listen (audio_device : Option String) (json csv disable_mpris : Bool)
  | recognize (audio_device : Option String) (json csv : Bool) (input_file : Option String)
  | audioFileToRecognizedSong (input_file : String)
  | microphoneToRecognizedSong (audio_device : Option String)
  | audioFileToFingerprint (input_file : String)
  | fingerprintToRecognizedSong (fingerprint : List Char)
  | noSubcommand
deriving DecidableEq

/-- The action `main`'s `match` selects for a subcommand. -/
inductive MainCall
  | printFileFingerprint (input_file : String)
  | recognizeAudioFile (input_file : String)
  | recognizeFingerprint (fingerprint : List Char)
  | runCli (params : CLIParameters)
deriving DecidableEq

/-- What a successful run of `main` leaves behind: a line printed to
standard output, or a `cli_main` invocation with its parameters. -/
inductive MainEffect
  | printed (out : List Char)
  | ranCli (params : CLIParameters)
deriving DecidableEq

/-- Embedding of the `match args.subcommand_name()` dispatch of `main.rs`
(lines 220–333) for a build without the `gui` feature: which action each
subcommand maps to, including the `CLIParameters` records built verbatim
in the source. -/
def mainDispatch : Subcommand → MainCall
  | .listen dev json csv disable_mpris =>
    .runCli
      { enable_mpris := !disable_mpris
        recognize_once := false
        audio_device := dev
        input_file := none
        output_type :=
          if json then CLIOutputType.JSON
          else if csv then CLIOutputType.CSV
          else CLIOutputType.SongName }
  | .recognize dev json csv input_file =>
    .runCli
      { enable_mpris := false
        recognize_once := true
        audio_device := dev
        input_file := input_file
        output_type :=
          if json then CLIOutputType.JSON
          else if csv then CLIOutputType.CSV
          else CLIOutputType.SongName }
  | .audioFileToRecognizedSong f => .recognizeAudioFile f
  | .microphoneToRecognizedSong dev =>
    .runCli
      { enable_mpris := false
        recognize_once := true
        audio_device := dev
        input_file := none
        output_type := CLIOutputType.JSON }
  | .audioFileToFingerprint f => .printFileFingerprint f
  | .fingerprintToRecognizedSong fp => .recognizeFingerprint fp
  | .noSubcommand =>
    .runCli
      { enable_mpris := true
        recognize_once := false
        audio_device := none
        input_file := none
        output_type := CLIOutputType.SongName }

/-- Embedding of the bodies of the `match` arms of `main.rs`: run the
selected action against the oracle environment, propagating errors the
way the source's `?` operators do. -/
def execMainCall (env : ExternalEnv) : MainCall → Except RunError MainEffect
  | .printFileFingerprint f =>
    match env.make_signature_from_file f with
    | .ok sig => .ok (.printed (encode_to_uri sig))
    | .error e => .error e
  | .recognizeAudioFile f =>
    match env.make_signature_from_file f with
    | .ok sig =>
      match env.recognize_song_from_signature sig with
      | .ok j => .ok (.printed (env.to_string_pretty j))
      | .error e => .error e
    | .error e => .error e
  | .recognizeFingerprint fp =>
    match decode_from_uri fp with
    | some sig =>
      match env.recognize_song_from_signature sig with
      | .ok j => .ok (.printed (env.to_string_pretty j))
      | .error e => .error e
    | none => .error RunError.corruptSignature
  | .runCli p =>
    match env.cli_main p with
    | .ok _ => .ok (.ranCli p)
    | .error e => .error e

/-- The `main` function of `main.rs`: dispatch the subcommand and run its arm. -/
def mainRun (env : ExternalEnv) (cmd : Subcommand) : Except RunError MainEffect :=
  execMainCall env (mainDispatch cmd)

/-- The process exit code Rust's `Termination` impl derives from `main`'s
`Result<(), Box<dyn Error>>`: 0 for `Ok`, 1 (non-zero) for `Err`. -/
def processExitCode : Except RunError MainEffect → Nat
  | .ok _ => 0
  | .error _ => 1

/-- Clap-level argument validation failures. -/
inductive ClapError
  | conflictingArguments
deriving DecidableEq

/-- Embedding of clap's argument validation for the `listen` subcommand:
the `json` argument is declared with `.conflicts_with("csv")` (`main.rs`
line 81), so an invocation supplying both fails before `main`'s `match`
runs; otherwise the parsed subcommand is produced. -/
def parse_listen_args (dev : Option String) (json csv disable_mpris : Bool) :
    Except ClapError Subcommand :=
  if json && csv then .error ClapError.conflictingArguments
  else .ok (.listen dev json csv disable_mpris)

/-- Embedding of clap's argument validation for the `recognize`
subcommand: `json` is declared with `.conflicts_with("csv")` (`main.rs`
line 110). -/
def parse_recognize_args (dev : Option String) (json csv : Bool)
    (input_file : Option String) : Except ClapError Subcommand :=
  if json && csv then .error ClapError.conflictingArguments
  else .ok (.recognize dev json csv input_file)

/-- Modelled from the spec: the number of Recognizer requests `cli_main`
(in `cli_main.rs`, absent from `src/`) issues — spec §4.8: single-shot
mode ("recognize once") runs exactly one Recognizer request and exits
after either match or first failure; continuous mode keeps issuing
requests while signatures arrive. -/
def recognizerRequests (p : CLIParameters) (queued_signatures : Nat) : Nat :=
  if p.recognize_once then 1 else queued_signatures

/-! ## Auxiliary definitions for the claims -/

/-- The CRC-32 verification a frame consumer performs: the little-endian
word at bytes 4–7 equals the CRC-32 of the frame with the CRC word zeroed
(spec §6). -/
def crcCheck (bytes : List Nat) : Bool :=
  match (bytes.drop 4).take 4 with
  | [c0, c1, c2, c3] =>
    decide (leU32 c0 c1 c2 c3 = crc32 (bytes.take 4 ++ ([0, 0, 0, 0] ++ bytes.drop 8)))
  | _ => false

/-- The URL-safe base64 alphabet: the standard alphabet with `+` and `/`
escaped to `-` and `_`. -/
def urlSafeB64Alphabet : List Char := stdB64Alphabet.map escapeUrlChar

/-- The empty signature (spec §8 seed test 3). -/
def sigEmpty : DecodedSignature := ⟨16000, 0, [], [], [], []⟩

/-- A small concrete signature as the FFT stage could produce it: eight
seconds of samples, two peaks in band 1, one in band 2. -/
def sigExample : DecodedSignature :=
  ⟨16000, 128000, [],
   [⟨10, 1000, 1500, 16000⟩, ⟨300, 2000, 2500, 16000⟩],
   [⟨500, 3000, 40000, 16000⟩], []⟩

/-- A concrete oracle environment for witnesses. -/
def envExample : ExternalEnv :=
  { make_signature_from_file := fun _ => .ok sigExample
    recognize_song_from_signature := fun _ => .ok ⟨['o', 'k']⟩
    to_string_pretty := fun j => j.raw
    cli_main := fun _ => .ok () }

theorem leU32_u32le (x : Nat) :
    leU32 (x % 256) (x / 256 % 256) (x / 65536 % 256) (x / 16777216 % 256)
      = x % 4294967296 := by
  unfold leU32; omega

theorem leU32_u32le_of_lt (x : Nat) (h : x < 4294967296) :
    leU32 (x % 256) (x / 256 % 256) (x / 65536 % 256) (x / 16777216 % 256) = x := by
  unfold leU32; omega

theorem length_u32le (x : Nat) : (u32le x).length = 4 := rfl

theorem crc32Round_lt (c : Nat) (h : c < 4294967296) :
    crc32Round c < 4294967296 := by
  unfold crc32Round
  split
  · exact Nat.xor_lt_two_pow (n := 32) (by omega) (by norm_num)
  · omega

theorem crc32Byte_lt (c b : Nat) (hc : c < 4294967296) (hb : b < 256) :
    crc32Byte c b < 4294967296 := by
  unfold crc32Byte
  have h0 : c ^^^ b < 4294967296 :=
    Nat.xor_lt_two_pow (n := 32) (by omega) (by omega)
  exact crc32Round_lt _ (crc32Round_lt _ (crc32Round_lt _ (crc32Round_lt _
    (crc32Round_lt _ (crc32Round_lt _ (crc32Round_lt _ (crc32Round_lt _ h0)))))))

theorem crc32_lt (bytes : List Nat) (h : ∀ b ∈ bytes, b < 256) :
    crc32 bytes < 4294967296 := by
  unfold crc32
  have hfold : ∀ (l : List Nat) (c : Nat), (∀ b ∈ l, b < 256) → c < 4294967296 →
      l.foldl crc32Byte c < 4294967296 := by
    intro l
    induction l with
    | nil => intro c _ hc; simpa using hc
    | cons x xs ih =>
      intro c hl hc
      simp only [List.foldl_cons]
      exact ih _ (fun b hb => hl b (List.mem_cons_of_mem _ hb))
        (crc32Byte_lt c x hc (hl x (List.mem_cons_self _ _)))
  exact Nat.xor_lt_two_pow (n := 32)
    (hfold bytes 4294967295 h (by norm_num)) (by norm_num)

theorem encodeRecords_length_ge (base : Nat) (ps : List FrequencyPeak) :
    ps.length ≤ (encodeRecords base ps).length := by
  induction ps generalizing base with
  | nil => simp [encodeRecords]
  | cons p rest ih =>
    unfold encodeRecords
    split <;> simp only [List.length_cons, List.length_append] <;>
      have := ih p.fft_pass_number <;> simp [u32le, u16le] <;> omega

theorem decodeRecords_encodeRecords (rate : Nat) (ps : List FrequencyPeak) :
    ∀ (fuel base : Nat), wfPeaks rate base ps → ps.length ≤ fuel →
      decodeRecords rate fuel base (encodeRecords base ps) = some ps := by
  induction ps with
  | nil => intro fuel base _ _; cases fuel <;> simp [encodeRecords, decodeRecords]
  | cons p rest ih =>
    intro fuel base hwf hfuel
    obtain ⟨hbase, ⟨hfft, hmag, hbin, hrate⟩, hrest⟩ := hwf
    obtain ⟨fuel, rfl⟩ : ∃ f, fuel = f + 1 := by
      cases fuel with
      | zero => simp at hfuel
      | succ f => exact ⟨f, rfl⟩
    have hfuel' : rest.length ≤ fuel := by simp at hfuel; omega
    have hih := ih fuel p.fft_pass_number hrest hfuel'
    unfold encodeRecords
    by_cases hΔ : 255 ≤ p.fft_pass_number - base
    · rw [if_pos hΔ]
      simp only [u32le, u16le, List.cons_append, List.nil_append]
      unfold decodeRecords
      rw [if_pos rfl]
      dsimp only
      have hfp : leU32 (p.fft_pass_number % 256) (p.fft_pass_number / 256 % 256)
          (p.fft_pass_number / 65536 % 256) (p.fft_pass_number / 16777216 % 256)
          = p.fft_pass_number := leU32_u32le_of_lt _ hfft
      rw [hfp, hih]
      have hm : p.peak_magnitude % 256 + 256 * (p.peak_magnitude / 256 % 256)
          = p.peak_magnitude := by omega
      have hq : p.corrected_peak_frequency_bin % 256
          + 256 * (p.corrected_peak_frequency_bin / 256 % 256)
          = p.corrected_peak_frequency_bin := by omega
      rw [hm, hq]
      cases p
      simp_all
    · rw [if_neg hΔ]
      simp only [u16le, List.cons_append, List.nil_append]
      unfold decodeRecords
      rw [if_neg (by omega)]
      dsimp only
      have hfp : base + (p.fft_pass_number - base) = p.fft_pass_number := by omega
      rw [hfp, hih]
      have hm : p.peak_magnitude % 256 + 256 * (p.peak_magnitude / 256 % 256)
          = p.peak_magnitude := by omega
      have hq : p.corrected_peak_frequency_bin % 256
          + 256 * (p.corrected_peak_frequency_bin / 256 % 256)
          = p.corrected_peak_frequency_bin := by omega
      rw [hm, hq]
      cases p
      simp_all

theorem decodeTLVList_encodeTLVList (rate : Nat)
    (pairs : List (Nat × List FrequencyPeak)) :
    ∀ fuel : Nat,
      (∀ bp ∈ pairs, bp.1 ≤ 3 ∧ wfPeaks rate 0 bp.2
        ∧ (encodeRecords 0 bp.2).length < 4294967296) →
      pairs.length ≤ fuel →
      decodeTLVList rate fuel (encodeTLVList pairs) = some pairs := by
  induction pairs with
  | nil =>
    intro fuel _ _
    cases fuel <;> simp [encodeTLVList, decodeTLVList]
  | cons bp rest ih =>
    intro fuel hwf hfuel
    obtain ⟨band, ps⟩ := bp
    obtain ⟨hband, hps, hlen⟩ := hwf (band, ps) (List.mem_cons_self _ _)
    dsimp only at hband hps hlen
    obtain ⟨fuel, rfl⟩ : ∃ f, fuel = f + 1 := by
      cases fuel with
      | zero => simp at hfuel
      | succ f => exact ⟨f, rfl⟩
    have hih := ih fuel (fun q hq => hwf q (List.mem_cons_of_mem _ hq))
      (by simp at hfuel ⊢; omega)
    simp only [encodeTLVList, encodeTLV, u32le, List.cons_append, List.nil_append]
    unfold decodeTLVList
    have htag : leU32 ((96 + band) % 256) ((96 + band) / 256 % 256)
        ((96 + band) / 65536 % 256) ((96 + band) / 16777216 % 256) = 96 + band := by
      unfold leU32; omega
    have hlenw : leU32 ((encodeRecords 0 ps).length % 256)
        ((encodeRecords 0 ps).length / 256 % 256)
        ((encodeRecords 0 ps).length / 65536 % 256)
        ((encodeRecords 0 ps).length / 16777216 % 256)
        = (encodeRecords 0 ps).length := leU32_u32le_of_lt _ hlen
    rw [htag, hlenw]
    simp only [List.append_assoc]
    have hbody : (encodeRecords 0 ps
        ++ (List.replicate (padTo4 (encodeRecords 0 ps).length) 0 ++ encodeTLVList rest)).length
        = (encodeRecords 0 ps).length + padTo4 (encodeRecords 0 ps).length
          + (encodeTLVList rest).length := by
      simp [List.length_append]; omega
    rw [if_pos ⟨by omega, by omega, by rw [hbody]; omega⟩]
    have htake : (encodeRecords 0 ps
        ++ (List.replicate (padTo4 (encodeRecords 0 ps).length) 0
          ++ encodeTLVList rest)).take (encodeRecords 0 ps).length
        = encodeRecords 0 ps := by
      rw [List.take_append_of_le_length (by omega), List.take_of_length_le (by omega)]
    have hdrop : (encodeRecords 0 ps
        ++ (List.replicate (padTo4 (encodeRecords 0 ps).length) 0
          ++ encodeTLVList rest)).drop
            ((encodeRecords 0 ps).length + padTo4 (encodeRecords 0 ps).length)
        = encodeTLVList rest := by
      rw [← List.append_assoc, List.drop_append_of_le_length (by simp)]
      simp
    rw [htake, hdrop,
      decodeRecords_encodeRecords rate ps (encodeRecords 0 ps).length 0 hps
        (encodeRecords_length_ge 0 ps)]
    dsimp only
    rw [hih]
    simp

/-! ### Byte-range lemmas: every emitted byte is an actual byte -/

theorem mem_u32le_lt (x : Nat) : ∀ b ∈ u32le x, b < 256 := by
  intro b hb
  simp only [u32le, List.mem_cons, List.not_mem_nil, or_false] at hb
  rcases hb with rfl | rfl | rfl | rfl <;> omega

theorem mem_u16le_lt (x : Nat) : ∀ b ∈ u16le x, b < 256 := by
  intro b hb
  simp only [u16le, List.mem_cons, List.not_mem_nil, or_false] at hb
  rcases hb with rfl | rfl <;> omega

theorem mem_encodeRecords_lt (ps : List FrequencyPeak) :
    ∀ (base : Nat), ∀ b ∈ encodeRecords base ps, b < 256 := by
  induction ps with
  | nil => intro base b hb; simp [encodeRecords] at hb
  | cons p rest ih =>
    intro base b hb
    unfold encodeRecords at hb
    split at hb <;>
      simp only [List.mem_cons, List.mem_append] at hb <;>
      rcases hb with h | h <;>
      first
        | omega
        | (rcases h with h | h
           · exact mem_u32le_lt _ _ h
           · rcases h with h | h
             · exact mem_u16le_lt _ _ h
             · rcases h with h | h
               · exact mem_u16le_lt _ _ h
               · exact ih _ _ h)
        | (rcases h with h | h
           · exact mem_u16le_lt _ _ h
           · rcases h with h | h
             · exact mem_u16le_lt _ _ h
             · exact ih _ _ h)

theorem mem_encodeTLVList_lt (pairs : List (Nat × List FrequencyPeak)) :
    ∀ b ∈ encodeTLVList pairs, b < 256 := by
  induction pairs with
  | nil => intro b hb; simp [encodeTLVList] at hb
  | cons bp rest ih =>
    intro b hb
    obtain ⟨band, ps⟩ := bp
    unfold encodeTLVList encodeTLV at hb
    rcases List.mem_append.mp hb with h | h
    · rcases List.mem_append.mp h with h | h
      · exact mem_u32le_lt _ _ h
      · rcases List.mem_append.mp h with h | h
        · exact mem_u32le_lt _ _ h
        · rcases List.mem_append.mp h with h | h
          · exact mem_encodeRecords_lt _ _ _ h
          · have := List.eq_of_mem_replicate h; omega
    · exact ih _ h

theorem mem_frameNoCrc_lt (s : DecodedSignature) : ∀ b ∈ frameNoCrc s, b < 256 := by
  intro b hb
  simp only [frameNoCrc, suffixBytes, encodePayload, List.mem_append] at hb
  rcases hb with h | h | h | h | h | h | h | h | h | h | h | h | h | h | h
  all_goals first
    | exact mem_u32le_lt _ _ h
    | exact mem_encodeTLVList_lt _ _ h

theorem mem_encode_to_binary_lt (s : DecodedSignature) :
    ∀ b ∈ encode_to_binary s, b < 256 := by
  intro b hb
  simp only [encode_to_binary, suffixBytes, encodePayload, List.mem_append] at hb
  rcases hb with h | h | h | h | h | h | h | h | h | h | h | h | h | h | h
  all_goals first
    | exact mem_u32le_lt _ _ h
    | exact mem_encodeTLVList_lt _ _ h

/-! ### Structure of the band list -/

theorem bandsOf_length_le (s : DecodedSignature) : (bandsOf s).length ≤ 4 := by
  unfold bandsOf
  split_ifs <;> simp

theorem mem_bandsOf (s : DecodedSignature) (bp : Nat × List FrequencyPeak)
    (h : bp ∈ bandsOf s) :
    bp = (0, s.peaks_250_520) ∨ bp = (1, s.peaks_520_1450)
      ∨ bp = (2, s.peaks_1450_3500) ∨ bp = (3, s.peaks_3500_5500) := by
  unfold bandsOf at h
  split_ifs at h <;> simp_all <;> tauto

theorem encodeRecords_length_le_payload (pairs : List (Nat × List FrequencyPeak))
    (bp : Nat × List FrequencyPeak) (h : bp ∈ pairs) :
    (encodeRecords 0 bp.2).length ≤ (encodeTLVList pairs).length := by
  induction pairs with
  | nil => simp at h
  | cons q rest ih =>
    obtain ⟨band, ps⟩ := q
    rcases List.mem_cons.mp h with rfl | h
    · simp [encodeTLVList, encodeTLV, List.length_append, u32le]
      omega
    · have := ih h
      simp only [encodeTLVList, List.length_append]
      omega

theorem getBand_bandsOf (s : DecodedSignature) :
    getBand (bandsOf s) 0 = s.peaks_250_520
      ∧ getBand (bandsOf s) 1 = s.peaks_520_1450
      ∧ getBand (bandsOf s) 2 = s.peaks_1450_3500
      ∧ getBand (bandsOf s) 3 = s.peaks_3500_5500 := by
  unfold bandsOf
  by_cases h0 : s.peaks_250_520 = [] <;>
    by_cases h1 : s.peaks_520_1450 = [] <;>
      by_cases h2 : s.peaks_1450_3500 = [] <;>
        by_cases h3 : s.peaks_3500_5500 = [] <;>
          simp [h0, h1, h2, h3, getBand]

/-! ### The binary round-trip -/

theorem decode_encode_binary (s : DecodedSignature) (h : wfSignature s) :
    decode_from_binary (encode_to_binary s) = some s := by
  obtain ⟨hrate, hns, hb0, hb1, hb2, hb3, hplen⟩ := h
  have hpairs : ∀ bp ∈ bandsOf s, bp.1 ≤ 3 ∧ wfPeaks 16000 0 bp.2
      ∧ (encodeRecords 0 bp.2).length < 4294967296 := by
    intro bp hbp
    have hle : (encodeRecords 0 bp.2).length ≤ (encodePayload s).length := by
      simpa [encodePayload] using encodeRecords_length_le_payload (bandsOf s) bp hbp
    rcases mem_bandsOf s bp hbp with rfl | rfl | rfl | rfl
    · exact ⟨by norm_num, hb0, by omega⟩
    · exact ⟨by norm_num, hb1, by omega⟩
    · exact ⟨by norm_num, hb2, by omega⟩
    · exact ⟨by norm_num, hb3, by omega⟩
  have htlv : decodeTLVList 16000 4 (encodePayload s) = some (bandsOf s) :=
    decodeTLVList_encodeTLVList 16000 (bandsOf s) 4 hpairs (bandsOf_length_le s)
  have hcrclt : crc32 (frameNoCrc s) < 4294967296 := crc32_lt _ (mem_frameNoCrc_lt s)
  simp only [encode_to_binary, suffixBytes, u32le, List.cons_append, List.nil_append,
    Nat.zero_mod, Nat.zero_div]
  unfold decode_from_binary
  dsimp only
  rw [if_pos ⟨by unfold leU32; omega,
    by unfold leU32; omega,
    by unfold leU32; omega,
    by
      have h1 : leU32 (crc32 (frameNoCrc s) % 256) (crc32 (frameNoCrc s) / 256 % 256)
          (crc32 (frameNoCrc s) / 65536 % 256) (crc32 (frameNoCrc s) / 16777216 % 256)
          = crc32 (frameNoCrc s) := leU32_u32le_of_lt _ hcrclt
      rw [h1]
      congr 1,
    by decide,
    by unfold leU32; omega,
    by unfold leU32; omega,
    by unfold leU32; omega⟩]
  rw [htlv]
  dsimp only
  obtain ⟨e0, e1, e2, e3⟩ := getBand_bandsOf s
  rw [e0, e1, e2, e3]
  have hn : leU32 ((s.num_samples + 31744) % 256) ((s.num_samples + 31744) / 256 % 256)
      ((s.num_samples + 31744) / 65536 % 256) ((s.num_samples + 31744) / 16777216 % 256)
      - 31744 = s.num_samples := by
    unfold leU32; omega
  rw [hn]
  cases s
  simp_all

theorem b64index_b64char : ∀ n, n < 64 → b64index (b64char n) = some n := by decide

theorem b64char_ne_pad (n : Nat) : b64char n ≠ '=' := by
  unfold b64char
  rcases Nat.lt_or_ge n 64 with h | h
  · exact (by decide : ∀ m, m < 64 → stdB64Alphabet.getD m 'A' ≠ '=') n h
  · rw [List.getD_eq_default _ _ (by simpa [stdB64Alphabet] using h)]
    decide

theorem b64char_mem (n : Nat) : b64char n ∈ stdB64Alphabet := by
  unfold b64char
  rcases Nat.lt_or_ge n 64 with h | h
  · exact (by decide : ∀ m, m < 64 → stdB64Alphabet.getD m 'A' ∈ stdB64Alphabet) n h
  · rw [List.getD_eq_default _ _ (by simpa [stdB64Alphabet] using h)]
    decide

theorem b64decode_b64encode (bs : List Nat) (h : ∀ b ∈ bs, b < 256) :
    b64decode (b64encode bs) = some bs := by
  induction bs using b64encode.induct with
  | case1 a b c rest ih =>
    have ha : a < 256 := h a (by simp)
    have hb : b < 256 := h b (by simp)
    have hc : c < 256 := h c (by simp)
    have hih := ih (fun x hx => h x (by simp [hx]))
    unfold b64encode b64decode
    rw [b64index_b64char _ (by omega), b64index_b64char _ (by omega)]
    dsimp only
    rw [if_neg (b64char_ne_pad _), b64index_b64char _ (by omega)]
    dsimp only
    rw [if_neg (b64char_ne_pad _), b64index_b64char _ (by omega), hih]
    dsimp only
    have e1 : a / 4 * 4 + (a % 4 * 16 + b / 16) / 16 = a := by omega
    have e2 : (a % 4 * 16 + b / 16) % 16 * 16 + (b % 16 * 4 + c / 64) / 4 = b := by omega
    have e3 : (b % 16 * 4 + c / 64) % 4 * 64 + c % 64 = c := by omega
    rw [e1, e2, e3]
  | case2 a b =>
    have ha : a < 256 := h a (by simp)
    have hb : b < 256 := h b (by simp)
    unfold b64encode b64decode
    rw [b64index_b64char _ (by omega), b64index_b64char _ (by omega)]
    dsimp only
    rw [if_neg (b64char_ne_pad _), b64index_b64char _ (by omega)]
    dsimp only
    rw [if_pos rfl, if_pos rfl]
    have e1 : a / 4 * 4 + (a % 4 * 16 + b / 16) / 16 = a := by omega
    have e2 : (a % 4 * 16 + b / 16) % 16 * 16 + b % 16 * 4 / 4 = b := by omega
    rw [e1, e2]
  | case3 a =>
    have ha : a < 256 := h a (by simp)
    unfold b64encode b64decode
    rw [b64index_b64char _ (by omega), b64index_b64char _ (by omega)]
    dsimp only
    rw [if_pos rfl, if_pos ⟨rfl, rfl⟩]
    have e1 : a / 4 * 4 + a % 4 * 16 / 16 = a := by omega
    rw [e1]
  | case4 => rfl

theorem mem_b64encode (bs : List Nat) :
    ∀ c ∈ b64encode bs, c ∈ stdB64Alphabet ∨ c = '=' := by
  induction bs using b64encode.induct with
  | case1 a b c rest ih =>
    intro x hx
    unfold b64encode at hx
    simp only [List.mem_cons] at hx
    rcases hx with rfl | rfl | rfl | rfl | hx
    · exact Or.inl (b64char_mem _)
    · exact Or.inl (b64char_mem _)
    · exact Or.inl (b64char_mem _)
    · exact Or.inl (b64char_mem _)
    · exact ih x hx
  | case2 a b =>
    intro x hx
    unfold b64encode at hx
    simp only [List.mem_cons, List.not_mem_nil, or_false] at hx
    rcases hx with rfl | rfl | rfl | rfl
    · exact Or.inl (b64char_mem _)
    · exact Or.inl (b64char_mem _)
    · exact Or.inl (b64char_mem _)
    · exact Or.inr rfl
  | case3 a =>
    intro x hx
    unfold b64encode at hx
    simp only [List.mem_cons, List.not_mem_nil, or_false] at hx
    rcases hx with rfl | rfl | rfl | rfl
    · exact Or.inl (b64char_mem _)
    · exact Or.inl (b64char_mem _)
    · exact Or.inr rfl
    · exact Or.inr rfl
  | case4 => intro x hx; simp [b64encode] at hx

theorem unescape_escape_map (l : List Char)
    (h : ∀ c ∈ l, c ∈ stdB64Alphabet ∨ c = '=') :
    (l.map escapeUrlChar).map unescapeUrlChar = l := by
  induction l with
  | nil => rfl
  | cons c rest ih =>
    have hc : unescapeUrlChar (escapeUrlChar c) = c := by
      rcases h c (by simp) with hm | rfl
      · exact (by decide : ∀ x ∈ stdB64Alphabet, unescapeUrlChar (escapeUrlChar x) = x) c hm
      · decide
    simp only [List.map_cons, hc, ih (fun x hx => h x (by simp [hx]))]

/-! ### The URI round-trip -/

theorem decode_encode_uri (s : DecodedSignature) (h : wfSignature s) :
    decode_from_uri (encode_to_uri s) = some s := by
  unfold encode_to_uri decode_from_uri
  rw [List.take_append_of_le_length (by omega), List.take_of_length_le (by omega),
    if_pos rfl, List.drop_append_of_le_length (by omega), List.drop_of_length_le (by omega),
    List.nil_append,
    unescape_escape_map _ (mem_b64encode _),
    b64decode_b64encode _ (mem_encode_to_binary_lt s)]
  exact decode_encode_binary s h

/-! ### Frame prefix lemmas and the CRC check -/

theorem encode_take4 (s : DecodedSignature) :
    (encode_to_binary s).take 4 = u32le 0xCAFE2580 := by
  unfold encode_to_binary
  rw [List.take_append_of_le_length (by simp [u32le]),
    List.take_of_length_le (by simp [u32le])]

theorem encode_drop4 (s : DecodedSignature) :
    (encode_to_binary s).drop 4 = u32le (crc32 (frameNoCrc s)) ++ suffixBytes s := by
  unfold encode_to_binary
  rw [List.drop_append_of_le_length (by simp [u32le]),
    List.drop_of_length_le (by simp [u32le]), List.nil_append]

theorem encode_drop8 (s : DecodedSignature) :
    (encode_to_binary s).drop 8 = suffixBytes s := by
  unfold encode_to_binary
  rw [← List.append_assoc,
    List.drop_append_of_le_length (by simp [u32le]),
    List.drop_of_length_le (by simp [u32le]), List.nil_append]

theorem crcCheck_encode (s : DecodedSignature) : crcCheck (encode_to_binary s) = true := by
  have hcrclt : crc32 (frameNoCrc s) < 4294967296 := crc32_lt _ (mem_frameNoCrc_lt s)
  unfold crcCheck
  rw [encode_drop4, encode_take4, encode_drop8,
    List.take_append_of_le_length (by simp [u32le]),
    List.take_of_length_le (by simp [u32le])]
  simp only [u32le]
  rw [decide_eq_true_eq, leU32_u32le_of_lt _ hcrclt]
  congr 1

/-! ### URI shape lemmas -/

theorem encode_to_uri_take (s : DecodedSignature) :
    (encode_to_uri s).take uriPrefixChars.length = uriPrefixChars := by
  unfold encode_to_uri
  rw [List.take_append_of_le_length (by omega), List.take_of_length_le (by omega)]

theorem encode_to_uri_drop (s : DecodedSignature) :
    (encode_to_uri s).drop uriPrefixChars.length
      = (b64encode (encode_to_binary s)).map escapeUrlChar := by
  unfold encode_to_uri
  rw [List.drop_append_of_le_length (by omega),
    List.drop_of_length_le (by omega), List.nil_append]

theorem mem_encode_to_uri_tail (s : DecodedSignature) :
    ∀ c ∈ (b64encode (encode_to_binary s)).map escapeUrlChar,
      c ∈ urlSafeB64Alphabet ∨ c = '=' := by
  intro c hc
  rcases List.mem_map.mp hc with ⟨d, hd, rfl⟩
  rcases mem_b64encode _ d hd with hm | rfl
  · exact Or.inl (List.mem_map_of_mem _ hm)
  · exact Or.inr (by decide)

/-! ## The claims -/

/-- C1: for every Signature `s` produced by the FFT stage (well-formed per
`wfSignature`), decoding the binary frame obtained by encoding `s` yields
a Signature equal to `s` field-for-field, and the CRC-32 check of the
encoded frame succeeds. -/
theorem codec_binary_roundtrip (s : DecodedSignature) (h : wfSignature s) :
    decode_from_binary (encode_to_binary s) = some s
      ∧ crcCheck (encode_to_binary s) = true :=
  ⟨decode_encode_binary s h, crcCheck_encode s⟩

/-- Witness for C1 at a concrete signature. -/
theorem codec_binary_roundtrip_witness :
    wfSignature sigExample
      ∧ (decode_from_binary (encode_to_binary sigExample) = some sigExample
        ∧ crcCheck (encode_to_binary sigExample) = true) :=
  ⟨by decide, codec_binary_roundtrip sigExample (by decide)⟩

/-- C2: for every Signature `s` (as produced by the FFT stage), decoding
the data-URI produced by encoding `s` to URI form yields a Signature equal
to `s`: `decode_from_uri (encode_to_uri s) = some s`. -/
theorem codec_uri_roundtrip (s : DecodedSignature) (h : wfSignature s) :
    decode_from_uri (encode_to_uri s) = some s :=
  decode_encode_uri s h

/-- Witness for C2 at a concrete signature. -/
theorem codec_uri_roundtrip_witness :
    wfSignature sigExample
      ∧ decode_from_uri (encode_to_uri sigExample) = some sigExample :=
  ⟨by decide, codec_uri_roundtrip sigExample (by decide)⟩

set_option maxRecDepth 8000 in
/-- C3 (counterexample): the encoded empty signature does NOT carry the
bytes `00 9C 11 94` at byte offset 8 — offset 8 holds the total-size word
(spec §4.5 header order: magic1, CRC-32, total-size, magic2), so the
claim as stated fails there. -/
theorem magic2_not_at_offset8 :
    ¬ ((encode_to_binary sigEmpty).take 4 = [0x80, 0x25, 0xFE, 0xCA]
      ∧ ((encode_to_binary sigEmpty).drop 8).take 4 = [0x00, 0x9C, 0x11, 0x94]) := by
  decide

/-- C3 (amended): every frame emitted by the encoder begins with the four
bytes `80 25 FE CA`, and contains the four bytes `00 9C 11 94` at byte
offset 12 (not 8). -/
theorem magic_bytes_of_frame (s : DecodedSignature) :
    (encode_to_binary s).take 4 = [0x80, 0x25, 0xFE, 0xCA]
      ∧ ((encode_to_binary s).drop 12).take 4 = [0x00, 0x9C, 0x11, 0x94] := by
  constructor
  · rw [encode_take4]
    decide
  · unfold encode_to_binary suffixBytes
    rw [← List.append_assoc, ← List.append_assoc,
      List.drop_append_of_le_length (by simp [u32le]),
      List.drop_of_length_le (by simp [u32le]), List.nil_append,
      List.take_append_of_le_length (by simp [u32le]),
      List.take_of_length_le (by simp [u32le])]
    decide

/-- C5: with the `audio-file-to-fingerprint` subcommand and an input file,
the program generates a signature from the file and prints its data-URI
form to standard output — `data:audio/vnd.shazam.sig;base64,` followed by
URL-safe base64 characters. -/
theorem audio_file_to_fingerprint_prints_uri (env : ExternalEnv) (f : String)
    (sig : DecodedSignature)
    (h : env.make_signature_from_file f = .ok sig) :
    mainRun env (.audioFileToFingerprint f) = .ok (.printed (encode_to_uri sig))
      ∧ (encode_to_uri sig).take uriPrefixChars.length = uriPrefixChars
      ∧ ∀ c ∈ (encode_to_uri sig).drop uriPrefixChars.length,
          c ∈ urlSafeB64Alphabet ∨ c = '=' := by
  refine ⟨?_, encode_to_uri_take sig, ?_⟩
  · unfold mainRun mainDispatch execMainCall
    dsimp only
    rw [h]
  · rw [encode_to_uri_drop]
    exact mem_encode_to_uri_tail sig

/-- Witness for C5 at a concrete environment and file. -/
theorem audio_file_to_fingerprint_prints_uri_witness :
    envExample.make_signature_from_file ("song.wav") = .ok sigExample
      ∧ (mainRun envExample (.audioFileToFingerprint ("song.wav"))
          = .ok (.printed (encode_to_uri sigExample))
        ∧ (encode_to_uri sigExample).take uriPrefixChars.length = uriPrefixChars
        ∧ ∀ c ∈ (encode_to_uri sigExample).drop uriPrefixChars.length,
            c ∈ urlSafeB64Alphabet ∨ c = '=') :=
  ⟨rfl, audio_file_to_fingerprint_prints_uri envExample ("song.wav") sigExample rfl⟩

/-- C6: with the `fingerprint-to-recognized-song` subcommand, the program
decodes the data-URI into a Signature, submits it to the recognition
service, and prints the resulting pretty-printed JSON to standard output;
a decode failure or a recognition failure aborts the run with an error. -/
theorem fingerprint_to_recognized_song_behaviour (env : ExternalEnv)
    (fp : List Char) (sig : DecodedSignature) (j : JsonDoc)
    (h1 : decode_from_uri fp = some sig)
    (h2 : env.recognize_song_from_signature sig = .ok j) :
    mainRun env (.fingerprintToRecognizedSong fp)
        = .ok (.printed (env.to_string_pretty j))
      ∧ (∀ (env2 : ExternalEnv) (fp2 : List Char), decode_from_uri fp2 = none →
          mainRun env2 (.fingerprintToRecognizedSong fp2)
            = .error RunError.corruptSignature)
      ∧ (∀ (env3 : ExternalEnv) (fp3 : List Char) (sig3 : DecodedSignature)
          (e : RunError), decode_from_uri fp3 = some sig3 →
          env3.recognize_song_from_signature sig3 = .error e →
          mainRun env3 (.fingerprintToRecognizedSong fp3) = .error e) := by
  refine ⟨?_, ?_, ?_⟩
  · unfold mainRun mainDispatch execMainCall
    dsimp only
    rw [h1]
    dsimp only
    rw [h2]
  · intro env2 fp2 hd
    unfold mainRun mainDispatch execMainCall
    dsimp only
    rw [hd]
  · intro env3 fp3 sig3 e hd hr
    unfold mainRun mainDispatch execMainCall
    dsimp only
    rw [hd]
    dsimp only
    rw [hr]

/-- Witness for C6 at a concrete environment and fingerprint. -/
theorem fingerprint_to_recognized_song_behaviour_witness :
    decode_from_uri (encode_to_uri sigExample) = some sigExample
      ∧ envExample.recognize_song_from_signature sigExample = .ok ⟨['o', 'k']⟩
      ∧ (mainRun envExample (.fingerprintToRecognizedSong (encode_to_uri sigExample))
            = .ok (.printed (envExample.to_string_pretty ⟨['o', 'k']⟩))
        ∧ (∀ (env2 : ExternalEnv) (fp2 : List Char), decode_from_uri fp2 = none →
            mainRun env2 (.fingerprintToRecognizedSong fp2)
              = .error RunError.corruptSignature)
        ∧ (∀ (env3 : ExternalEnv) (fp3 : List Char) (sig3 : DecodedSignature)
            (e : RunError), decode_from_uri fp3 = some sig3 →
            env3.recognize_song_from_signature sig3 = .error e →
            mainRun env3 (.fingerprintToRecognizedSong fp3) = .error e)) :=
  ⟨decode_encode_uri sigExample (by decide), rfl,
    fingerprint_to_recognized_song_behaviour envExample (encode_to_uri sigExample)
      sigExample ⟨['o', 'k']⟩ (decode_encode_uri sigExample (by decide)) rfl⟩

/-- C7: `recognize` and `microphone-to-recognized-song` run with
`recognize_once = true` (single-shot: exactly one Recognizer request),
while `listen` runs the continuous pipeline with `recognize_once = false`. -/
theorem single_shot_versus_listen (dev : Option String)
    (json csv disable_mpris : Bool) (file : Option String) :
    (∃ p, mainDispatch (.recognize dev json csv file) = .runCli p
      ∧ p.recognize_once = true ∧ ∀ q, recognizerRequests p q = 1)
    ∧ (∃ p, mainDispatch (.microphoneToRecognizedSong dev) = .runCli p
      ∧ p.recognize_once = true ∧ ∀ q, recognizerRequests p q = 1)
    ∧ (∃ p, mainDispatch (.listen dev json csv disable_mpris) = .runCli p
      ∧ p.recognize_once = false) :=
  ⟨⟨_, rfl, rfl, fun _ => rfl⟩, ⟨_, rfl, rfl, fun _ => rfl⟩, ⟨_, rfl, rfl⟩⟩

/-- C8: the process exit code is 0 exactly when the selected subcommand
completes without error, and non-zero when any fatal error is propagated
out of `main`. -/
theorem exit_code_zero_iff_success (env : ExternalEnv) (cmd : Subcommand) :
    (processExitCode (mainRun env cmd) = 0 ↔ ∃ t, mainRun env cmd = .ok t)
      ∧ ∀ e, mainRun env cmd = .error e → processExitCode (mainRun env cmd) ≠ 0 := by
  cases h : mainRun env cmd <;> simp [processExitCode, h]

/-- C9: for both `listen` and `recognize`, supplying `--json` and `--csv`
together fails at argument parsing (clap's `conflicts_with`), before any
pipeline work starts; with neither flag, the output type defaults to
printing the song name only. -/
theorem json_csv_exclusive_and_default (dev : Option String)
    (disable_mpris : Bool) (file : Option String) :
    parse_listen_args dev true true disable_mpris
        = .error ClapError.conflictingArguments
      ∧ parse_recognize_args dev true true file
        = .error ClapError.conflictingArguments
      ∧ (∃ p, mainDispatch (.listen dev false false disable_mpris) = .runCli p
          ∧ p.output_type = CLIOutputType.SongName)
      ∧ (∃ p, mainDispatch (.recognize dev false false file) = .runCli p
          ∧ p.output_type = CLIOutputType.SongName) :=
  ⟨rfl, rfl, ⟨_, rfl, rfl⟩, ⟨_, rfl, rfl⟩⟩

/-- C10: in a build without the GUI feature, invoking the program with no
subcommand runs the continuous listen pipeline with default parameters:
MPRIS enabled, no audio device or input file, song-name-only output. -/
theorem no_subcommand_runs_listen_defaults :
    mainDispatch Subcommand.noSubcommand
      = MainCall.runCli
          { enable_mpris := true
            recognize_once := false
            audio_device := none
            input_file := none
            output_type := CLIOutputType.SongName } :=
  rfl

end SongRec
